import Mathlib

/-!
# Readers/writers controller of `3.go`

A shallow embedding of the `ReadersWriters` type of `src/3.go`, of its four
operations `startWrite`, `stopWrite`, `startRead`, `stopRead`, of the task
loops `write` and `read`, and of the driver `execute`.

Every method of the controller runs under `rw.mu`, so each method body is one
atomic step, except that `rw.cv.Wait()` releases the mutex and parks the
caller until a `Broadcast`.  The interleaving semantics below therefore has
one step per lock-protected section: an attempt to leave the wait loop, or a
stop.  The counters are Go `int`s, taken at their 64-bit width: a field holds
an integer between `minInt` and `maxInt`, and `++` and `--` wrap around
(`wrapInt`).  On the runs of the goroutines the counters count the goroutines
inside a critical section and stay between 0 and their number
(`counters_bounded`), which is below `2^63`.
-/

namespace RW

/-- The fields `writers`, `readers`, `writersPriority` of the Go struct
(`mu` and `cv` are represented by the step semantics). -/
structure ReadersWriters where
  writers : Int
  readers : Int
  writersPriority : Bool
deriving DecidableEq, Repr

/-- The smallest value of a Go `int` (64 bits). -/
def minInt : Int := -9223372036854775808

/-- The largest value of a Go `int` (64 bits). -/
def maxInt : Int := 9223372036854775807

/-- The value a Go `int` holds after an arithmetic operation whose exact
result is `x`: two's complement wrap-around at 64 bits. -/
def wrapInt (x : Int) : Int :=
  (x + 9223372036854775808) % 18446744073709551616 - 9223372036854775808

/-- The constructor `NewReadersWriters()`: counters zero-valued,
`writersPriority: true`. -/
def NewReadersWriters : ReadersWriters :=
  { writers := 0, readers := 0, writersPriority := true }

/-- The statement `rw.writersPriority = p` that `main` runs between episodes. -/
def setPriority (c : ReadersWriters) (p : Bool) : ReadersWriters :=
  { c with writersPriority := p }

/-- Loop condition of `startWrite`:
`rw.writers > 0 || (!rw.writersPriority && rw.readers > 0)`. -/
def startWriteWait (c : ReadersWriters) : Bool :=
  decide (c.writers > 0) || (!c.writersPriority && decide (c.readers > 0))

/-- Loop condition of `startRead`: `rw.writers > 0`. -/
def startReadWait (c : ReadersWriters) : Bool :=
  decide (c.writers > 0)

/-- One pass through `startWrite` with the mutex held: `none` when the loop
condition holds (the caller goes to `rw.cv.Wait()`), otherwise `rw.writers++`;
the increment is reached with `rw.writers <= 0` only, where it is exact. -/
def startWrite (c : ReadersWriters) : Option ReadersWriters :=
  if startWriteWait c then none else some { c with writers := c.writers + 1 }

/-- The method `stopWrite`: `rw.writers--`, then `Broadcast` when
`rw.writers == 0`.
The Boolean tells whether `rw.cv.Broadcast()` was called. -/
def stopWrite (c : ReadersWriters) : ReadersWriters × Bool :=
  let c1 := { c with writers := wrapInt (c.writers - 1) }
  (c1, decide (c1.writers = 0))

/-- One pass through `startRead` with the mutex held: `none` when the loop
condition holds (the caller goes to `rw.cv.Wait()`), otherwise `rw.readers++`. -/
def startRead (c : ReadersWriters) : Option ReadersWriters :=
  if startReadWait c then none else some { c with readers := wrapInt (c.readers + 1) }

/-- The method `stopRead`: `rw.readers--`, then an unconditional
`rw.cv.Broadcast()`. -/
def stopRead (c : ReadersWriters) : ReadersWriters × Bool :=
  ({ c with readers := wrapInt (c.readers - 1) }, true)

/-- Which of the two task loops a goroutine runs: `rw.write` or `rw.read`. -/
inductive Role where
  | writer
  | reader
deriving DecidableEq, Repr

/-- Where a goroutine stands inside the body of its loop. -/
inductive Pc where
  /-- about to call `startWrite` / `startRead` (or past the loop) -/
  | ready
  /-- parked in `rw.cv.Wait()`, not yet signalled -/
  | asleep
  /-- signalled by a `Broadcast`, has to retake the mutex and re-check -/
  | woken
  /-- between the start call and the stop call -/
  | inside
deriving DecidableEq, Repr

/-- A goroutine running `rw.write(id, iterations)` or `rw.read(id, iterations)`:
`i` is the loop variable of `for i := 0; i < iterations; i++`. -/
structure Task where
  role : Role
  iterations : Nat
  i : Nat
  pc : Pc
deriving DecidableEq, Repr

/-- The goroutine `rw.write(id, iterations)` before its first step. -/
def write (iterations : Nat) : Task :=
  { role := Role.writer, iterations := iterations, i := 0, pc := Pc.ready }

/-- The goroutine `rw.read(id, iterations)` before its first step. -/
def read (iterations : Nat) : Task :=
  { role := Role.reader, iterations := iterations, i := 0, pc := Pc.ready }

/-- What a step of a goroutine did. -/
inductive EventKind where
  | startWrite
  | stopWrite
  | startRead
  | stopRead
  /-- the loop condition held: the goroutine went to `rw.cv.Wait()` -/
  | wait
deriving DecidableEq, Repr

/-- A step of the goroutine number `task`. -/
structure Event where
  task : Nat
  kind : EventKind
deriving DecidableEq, Repr

/-- The controller together with the goroutines that use it. -/
structure System where
  ctl : ReadersWriters
  tasks : List Task
deriving DecidableEq, Repr

/-- The loop condition of the start operation of a role. -/
def waitCond : Role → ReadersWriters → Bool
  | Role.writer, c => startWriteWait c
  | Role.reader, c => startReadWait c

/-- The start operation of a role. -/
def start : Role → ReadersWriters → Option ReadersWriters
  | Role.writer, c => startWrite c
  | Role.reader, c => startRead c

/-- The stop operation of a role. -/
def stop : Role → ReadersWriters → ReadersWriters × Bool
  | Role.writer, c => stopWrite c
  | Role.reader, c => stopRead c

/-- The event of a completed start of a role. -/
def startKind : Role → EventKind
  | Role.writer => EventKind.startWrite
  | Role.reader => EventKind.startRead

/-- The event of a stop of a role. -/
def stopKind : Role → EventKind
  | Role.writer => EventKind.stopWrite
  | Role.reader => EventKind.stopRead

/-- Effect of `rw.cv.Broadcast()` on one goroutine. -/
def wakeTask (t : Task) : Task :=
  if t.pc = Pc.asleep then { t with pc := Pc.woken } else t

/-- Effect of `rw.cv.Broadcast()`: every goroutine parked in `Wait` is woken. -/
def wake (ts : List Task) : List Task :=
  ts.map wakeTask

/-- A goroutine takes the mutex in its start call (first time, or after
having been woken) and evaluates the loop condition. -/
def attempt (s : System) (n : Nat) (t : Task) : System × Event :=
  match start t.role s.ctl with
  | none =>
      ({ ctl := s.ctl, tasks := s.tasks.set n { t with pc := Pc.asleep } },
        { task := n, kind := EventKind.wait })
  | some c1 =>
      ({ ctl := c1, tasks := s.tasks.set n { t with pc := Pc.inside } },
        { task := n, kind := startKind t.role })

/-- A goroutine inside its critical section calls its stop operation and
moves to the next iteration of its loop. -/
def release (s : System) (n : Nat) (t : Task) : System × Event :=
  let r := stop t.role s.ctl
  let ts := s.tasks.set n { t with i := t.i + 1, pc := Pc.ready }
  ({ ctl := r.1, tasks := if r.2 then wake ts else ts },
    { task := n, kind := stopKind t.role })

/-- The next atomic step of goroutine `n`; `none` when it has none (it does
not exist, it is parked in `Wait`, or its loop is over). -/
def step (s : System) (n : Nat) : Option (System × Event) :=
  match s.tasks[n]? with
  | none => none
  | some t =>
    match t.pc with
    | Pc.asleep => none
    | Pc.inside => some (release s n t)
    | Pc.woken => some (attempt s n t)
    | Pc.ready => if t.i < t.iterations then some (attempt s n t) else none

/-- An interleaving: the goroutines named by the schedule step one after the
other; the result is the final system and the events in order. -/
def run : System → List Nat → Option (System × List Event)
  | s, [] => some (s, [])
  | s, n :: ns =>
    match step s n with
    | none => none
    | some (s1, e) =>
      match run s1 ns with
      | none => none
      | some (s2, es) => some (s2, e :: es)

/-- The goroutines `execute` spawns: `writeLimit := 2` writers and
`readLimit := 4` readers, each with `iterations := 1`. -/
def execute (c : ReadersWriters) : System :=
  { ctl := c, tasks := List.replicate 2 (write 1) ++ List.replicate 4 (read 1) }

/-- The loop of the goroutine is over. -/
def Task.done (t : Task) : Bool :=
  decide (t.pc = Pc.ready) && !decide (t.i < t.iterations)

/-- Every goroutine has returned (`wg.Wait()` returns). -/
def System.allDone (s : System) : Bool :=
  s.tasks.all Task.done

/-- Number of events of a kind in a trace. -/
def countKind (k : EventKind) (es : List Event) : Nat :=
  es.countP fun e => decide (e.kind = k)

/-- Number of goroutines of a role that are inside their critical section. -/
def insideCount (r : Role) (ts : List Task) : Nat :=
  ts.countP fun t => decide (t.role = r) && decide (t.pc = Pc.inside)

/-- A system before any goroutine has run: counters at zero, every
goroutine about to enter its loop; the goroutines are fewer than `2^63`, the
number from which a Go `int` could no longer count them. -/
def System.initial (s : System) : Prop :=
  s.ctl.writers = 0 ∧ s.ctl.readers = 0 ∧ (∀ t ∈ s.tasks, t.pc = Pc.ready) ∧
    s.tasks.length < 9223372036854775808

/-! ## Auxiliary definitions: counting, the invariant, and concrete runs of `execute` -/

/-- Contribution of one goroutine to `insideCount`. -/
def ind (r : Role) (t : Task) : Nat :=
  if t.role = r ∧ t.pc = Pc.inside then 1 else 0

/-- What every reachable system satisfies. -/
structure Inv (s : System) : Prop where
  writers_eq : s.ctl.writers = insideCount Role.writer s.tasks
  readers_eq : s.ctl.readers = insideCount Role.reader s.tasks
  writers_le : s.ctl.writers ≤ 1
  excl : s.ctl.writersPriority = false → s.ctl.writers ≤ 0 ∨ s.ctl.readers ≤ 0
  parked : ∀ t ∈ s.tasks, t.pc = Pc.asleep → waitCond t.role s.ctl = true
  small : s.tasks.length < 9223372036854775808

/-- Number of events of a kind in a one-event trace. -/
def delta (k : EventKind) (e : Event) : Nat :=
  if e.kind = k then 1 else 0

/-- The system of `execute` with the controller at `c` and goroutine number
`k` at loop variable `(st.get k).1` and position `(st.get k).2`. -/
def executeAt (c : ReadersWriters) (st : List (Nat × Pc)) : System :=
  { ctl := c,
    tasks := List.zipWith (fun t x => { t with i := x.1, pc := x.2 }) (execute c).tasks st }

/-- Writer-priority episode after reader 2 and then writer 0 have entered. -/
def overlapState : System :=
  executeAt { writers := 1, readers := 1, writersPriority := true }
    [(0, Pc.inside), (0, Pc.ready), (0, Pc.inside), (0, Pc.ready), (0, Pc.ready), (0, Pc.ready)]

/-- Writer-priority episode after writer 0 has entered. -/
def firstWriterIn : System :=
  executeAt { writers := 1, readers := 0, writersPriority := true }
    [(0, Pc.inside), (0, Pc.ready), (0, Pc.ready), (0, Pc.ready), (0, Pc.ready), (0, Pc.ready)]

/-- Writer-priority episode: writer 0 has come and gone, writer 1 went to
`Wait` meanwhile and has been signalled, and no reader has called yet. -/
def writerQueued : System :=
  executeAt { writers := 0, readers := 0, writersPriority := true }
    [(1, Pc.ready), (0, Pc.woken), (0, Pc.ready), (0, Pc.ready), (0, Pc.ready), (0, Pc.ready)]

/-- Writer-priority episode: writer 0 is inside and writer 1 has found it
there and is parked in `Wait`. -/
def writerBlocked : System :=
  executeAt { writers := 1, readers := 0, writersPriority := true }
    [(0, Pc.inside), (0, Pc.asleep), (0, Pc.ready), (0, Pc.ready), (0, Pc.ready), (0, Pc.ready)]

/-- The state `writerQueued` after reader 2 has called `startRead`. -/
def readerOvertook : System :=
  executeAt { writers := 0, readers := 1, writersPriority := true }
    [(1, Pc.ready), (0, Pc.woken), (0, Pc.inside), (0, Pc.ready), (0, Pc.ready), (0, Pc.ready)]

/-- Reader-priority episode: reader 2 has come and gone, writer 0 went to
`Wait` meanwhile and has been signalled. -/
def writerAfterReader : System :=
  executeAt { writers := 0, readers := 0, writersPriority := false }
    [(0, Pc.woken), (0, Pc.ready), (1, Pc.ready), (0, Pc.ready), (0, Pc.ready), (0, Pc.ready)]

/-- The state `writerAfterReader` after writer 0 has entered. -/
def writerAfterReaderIn : System :=
  executeAt { writers := 1, readers := 0, writersPriority := false }
    [(0, Pc.inside), (0, Pc.ready), (1, Pc.ready), (0, Pc.ready), (0, Pc.ready), (0, Pc.ready)]

/-- Reader-priority episode: reader 2 is inside and writer 0 is parked. -/
def writerParked : System :=
  executeAt { writers := 0, readers := 1, writersPriority := false }
    [(0, Pc.asleep), (0, Pc.ready), (0, Pc.inside), (0, Pc.ready), (0, Pc.ready), (0, Pc.ready)]

/-- The state `writerParked` after reader 3 has entered. -/
def secondReaderIn : System :=
  executeAt { writers := 0, readers := 2, writersPriority := false }
    [(0, Pc.asleep), (0, Pc.ready), (0, Pc.inside), (0, Pc.inside), (0, Pc.ready), (0, Pc.ready)]

/-- An episode of `execute` once every goroutine has returned. -/
def episodeOver (p : Bool) : System :=
  executeAt { writers := 0, readers := 0, writersPriority := p }
    [(1, Pc.ready), (1, Pc.ready), (1, Pc.ready), (1, Pc.ready), (1, Pc.ready), (1, Pc.ready)]

/-- A schedule that runs a reader-priority episode of `execute` to its end:
writer 0 has to wait for readers 2 and 3. -/
def fullSchedule : List Nat :=
  [2, 0, 3, 2, 3, 0, 0, 1, 1, 4, 4, 5, 5]

/-- The events of `fullSchedule`. -/
def fullTrace : List Event :=
  [⟨2, EventKind.startRead⟩, ⟨0, EventKind.wait⟩, ⟨3, EventKind.startRead⟩,
   ⟨2, EventKind.stopRead⟩, ⟨3, EventKind.stopRead⟩, ⟨0, EventKind.startWrite⟩,
   ⟨0, EventKind.stopWrite⟩, ⟨1, EventKind.startWrite⟩, ⟨1, EventKind.stopWrite⟩,
   ⟨4, EventKind.startRead⟩, ⟨4, EventKind.stopRead⟩, ⟨5, EventKind.startRead⟩,
   ⟨5, EventKind.stopRead⟩]

/-- A completed call of one of the four operations. -/
inductive Op where
  | startWrite
  | stopWrite
  | startRead
  | stopRead
deriving DecidableEq, Repr

/-- The controller after a completed call; `none` for a start whose loop
condition holds (that call does not complete in this state). -/
def applyOp (c : ReadersWriters) : Op → Option ReadersWriters
  | Op.startWrite => startWrite c
  | Op.stopWrite => some (stopWrite c).1
  | Op.startRead => startRead c
  | Op.stopRead => some (stopRead c).1

/-- The controller after a sequence of completed calls. -/
def applyOps : ReadersWriters → List Op → Option ReadersWriters
  | c, [] => some c
  | c, o :: os =>
    match applyOp c o with
    | none => none
    | some c1 => applyOps c1 os

/-- Number of calls of an operation in a sequence. -/
def countOp (o : Op) (os : List Op) : Nat :=
  os.countP fun x => decide (x = o)

/-- The calls of `fullTrace`, in order. -/
def fullOps : List Op :=
  [Op.startRead, Op.startRead, Op.stopRead, Op.stopRead, Op.startWrite, Op.stopWrite,
   Op.startWrite, Op.stopWrite, Op.startRead, Op.stopRead, Op.startRead, Op.stopRead]

/-! ## Counting goroutines inside their critical section -/

theorem insideCount_nil (r : Role) : insideCount r [] = 0 := rfl

theorem insideCount_cons (r : Role) (t : Task) (ts : List Task) :
    insideCount r (t :: ts) = insideCount r ts + ind r t := by
  unfold insideCount ind
  rw [List.countP_cons]
  by_cases h1 : t.role = r <;> by_cases h2 : t.pc = Pc.inside <;> simp [h1, h2]

theorem insideCount_set (r : Role) (x : Task) :
    ∀ (ts : List Task) (n : Nat) (t : Task), ts[n]? = some t →
      insideCount r (ts.set n x) + ind r t = insideCount r ts + ind r x := by
  intro ts
  induction ts with
  | nil => intro n t h; simp at h
  | cons a as ih =>
    intro n t h
    cases n with
    | zero =>
      simp at h
      subst h
      simp only [List.set_cons_zero, insideCount_cons]
      omega
    | succ m =>
      simp at h
      have := ih m t h
      simp only [List.set_cons_succ, insideCount_cons]
      omega

theorem ind_wakeTask (r : Role) (t : Task) : ind r (wakeTask t) = ind r t := by
  unfold wakeTask ind
  by_cases h : t.pc = Pc.asleep
  · simp [h]
  · simp [h]

theorem insideCount_wake (r : Role) (ts : List Task) :
    insideCount r (wake ts) = insideCount r ts := by
  induction ts with
  | nil => rfl
  | cons a as ih =>
    have : wake (a :: as) = wakeTask a :: wake as := rfl
    rw [this, insideCount_cons, insideCount_cons, ih, ind_wakeTask]

theorem insideCount_ready (r : Role) (ts : List Task)
    (h : ∀ t ∈ ts, t.pc = Pc.ready) : insideCount r ts = 0 := by
  induction ts with
  | nil => rfl
  | cons a as ih =>
    rw [insideCount_cons, ih (fun t ht => h t (List.mem_cons_of_mem _ ht))]
    have := h a (List.mem_cons_self _ _)
    simp [ind, this]

theorem wakeTask_pc (t : Task) : (wakeTask t).pc ≠ Pc.asleep := by
  unfold wakeTask
  by_cases h : t.pc = Pc.asleep
  · simp [h]
  · simp [h]

theorem wake_not_asleep (ts : List Task) : ∀ t ∈ wake ts, t.pc ≠ Pc.asleep := by
  intro t ht
  unfold wake at ht
  rw [List.mem_map] at ht
  obtain ⟨t0, _, rfl⟩ := ht
  exact wakeTask_pc t0

theorem insideCount_le_length (r : Role) (ts : List Task) :
    insideCount r ts ≤ ts.length := by
  unfold insideCount
  exact List.countP_le_length _

theorem length_wake (ts : List Task) : (wake ts).length = ts.length := by
  simp [wake]

theorem wrapInt_eq (x : Int) (h1 : minInt ≤ x) (h2 : x ≤ maxInt) : wrapInt x = x := by
  unfold minInt at h1
  unfold maxInt at h2
  unfold wrapInt
  omega

theorem wrapInt_range (x : Int) : minInt ≤ wrapInt x ∧ wrapInt x ≤ maxInt := by
  unfold minInt maxInt wrapInt
  omega

/-! ## The invariant of the interleaving semantics -/

theorem inv_initial (s : System) (h : s.initial) : Inv s := by
  obtain ⟨hw, hr, hready, hsmall⟩ := h
  refine ⟨?_, ?_, ?_, ?_, ?_, hsmall⟩
  · rw [hw, insideCount_ready _ _ hready]; rfl
  · rw [hr, insideCount_ready _ _ hready]; rfl
  · omega
  · intro _; left; omega
  · intro t ht hpc
    rw [hready t ht] at hpc
    exact absurd hpc (by decide)

theorem waitCond_writer_iff (c : ReadersWriters) :
    waitCond Role.writer c = true ↔
      (c.writers > 0 ∨ (c.writersPriority = false ∧ c.readers > 0)) := by
  simp [waitCond, startWriteWait]

theorem waitCond_reader_iff (c : ReadersWriters) :
    waitCond Role.reader c = true ↔ c.writers > 0 := by
  simp [waitCond, startReadWait]

theorem start_none_iff (r : Role) (c : ReadersWriters) :
    start r c = none ↔ waitCond r c = true := by
  cases r <;> simp [start, waitCond, startWrite, startRead]

theorem start_writer_some (c c1 : ReadersWriters) (h : start Role.writer c = some c1) :
    waitCond Role.writer c = false ∧
      c1 = { writers := c.writers + 1, readers := c.readers,
             writersPriority := c.writersPriority } := by
  simp only [start, startWrite, waitCond] at *
  by_cases hg : startWriteWait c = true
  · simp [hg] at h
  · simp [hg] at h
    exact ⟨by simpa using hg, h.symm⟩

theorem start_reader_some (c c1 : ReadersWriters) (h : start Role.reader c = some c1) :
    waitCond Role.reader c = false ∧
      c1 = { writers := c.writers, readers := wrapInt (c.readers + 1),
             writersPriority := c.writersPriority } := by
  simp only [start, startRead, waitCond] at *
  by_cases hg : startReadWait c = true
  · simp [hg] at h
  · simp [hg] at h
    exact ⟨by simpa using hg, h.symm⟩

theorem inv_attempt (s : System) (n : Nat) (t : Task) (hI : Inv s)
    (ht : s.tasks[n]? = some t) (hpc : t.pc ≠ Pc.inside) : Inv (attempt s n t).1 := by
  have hind : ∀ r, ind r t = 0 := by intro r; simp [ind, hpc]
  have hcw := hI.writers_eq
  have hcr := hI.readers_eq
  have hsm := hI.small
  unfold attempt
  cases hs : start t.role s.ctl with
  | none =>
    have hwait := (start_none_iff _ _).1 hs
    have hW := insideCount_set Role.writer { t with pc := Pc.asleep } s.tasks n t ht
    have hR := insideCount_set Role.reader { t with pc := Pc.asleep } s.tasks n t ht
    have h0 : ∀ r, ind r { t with pc := Pc.asleep } = 0 := by intro r; simp [ind]
    rw [hind, h0] at hW hR
    dsimp only
    refine ⟨?_, ?_, hI.writers_le, hI.excl, ?_, ?_⟩
    · dsimp only
      omega
    · dsimp only
      omega
    · intro t0 ht0 hp
      rcases List.mem_or_eq_of_mem_set ht0 with h | h
      · exact hI.parked t0 h hp
      · subst h; exact hwait
    · dsimp only
      rw [List.length_set]
      exact hsm
  | some c1 =>
    cases hr : t.role with
    | writer =>
      rw [hr] at hs
      obtain ⟨hg, rfl⟩ := start_writer_some _ _ hs
      have hg1 : ¬ (s.ctl.writers > 0 ∨ (s.ctl.writersPriority = false ∧ s.ctl.readers > 0)) := by
        rw [← waitCond_writer_iff]; simp [hg]
      have hW := insideCount_set Role.writer { t with pc := Pc.inside } s.tasks n t ht
      have hR := insideCount_set Role.reader { t with pc := Pc.inside } s.tasks n t ht
      have h1 : ind Role.writer { t with pc := Pc.inside } = 1 := by simp [ind, hr]
      have h0 : ind Role.reader { t with pc := Pc.inside } = 0 := by simp [ind, hr]
      rw [hind, h1] at hW
      rw [hind, h0] at hR
      rw [hr] at hW hR
      dsimp only
      refine ⟨?_, ?_, ?_, ?_, ?_, ?_⟩
      · dsimp only
        omega
      · dsimp only
        omega
      · show s.ctl.writers + 1 ≤ 1
        omega
      · intro hp
        show s.ctl.writers + 1 ≤ 0 ∨ s.ctl.readers ≤ 0
        right
        have hp1 : s.ctl.writersPriority = false := hp
        by_contra hc
        exact hg1 (Or.inr ⟨hp1, by omega⟩)
      · intro t0 ht0 hp
        rcases List.mem_or_eq_of_mem_set ht0 with h | h
        · cases hr0 : t0.role with
          | writer =>
            rw [waitCond_writer_iff]
            left
            show s.ctl.writers + 1 > 0
            omega
          | reader =>
            rw [waitCond_reader_iff]
            show s.ctl.writers + 1 > 0
            omega
        · subst h; simp at hp
      · dsimp only
        rw [List.length_set]
        exact hsm
    | reader =>
      rw [hr] at hs
      obtain ⟨hg, rfl⟩ := start_reader_some _ _ hs
      have hg1 : ¬ (s.ctl.writers > 0) := by
        rw [← waitCond_reader_iff]; simp [hg]
      have hW := insideCount_set Role.writer { t with pc := Pc.inside } s.tasks n t ht
      have hR := insideCount_set Role.reader { t with pc := Pc.inside } s.tasks n t ht
      have h1 : ind Role.reader { t with pc := Pc.inside } = 1 := by simp [ind, hr]
      have h0 : ind Role.writer { t with pc := Pc.inside } = 0 := by simp [ind, hr]
      rw [hind, h0] at hW
      rw [hind, h1] at hR
      rw [hr] at hW hR
      have hlen := insideCount_le_length Role.reader
        (s.tasks.set n { role := Role.reader, iterations := t.iterations, i := t.i,
                         pc := Pc.inside })
      rw [List.length_set] at hlen
      have hex : wrapInt (s.ctl.readers + 1) = s.ctl.readers + 1 :=
        wrapInt_eq _ (by unfold minInt; omega) (by unfold maxInt; omega)
      dsimp only
      rw [hex]
      refine ⟨?_, ?_, hI.writers_le, ?_, ?_, ?_⟩
      · dsimp only
        omega
      · dsimp only
        omega
      · intro _
        left
        show s.ctl.writers ≤ 0
        omega
      · intro t0 ht0 hp
        rcases List.mem_or_eq_of_mem_set ht0 with h | h
        · have hold := hI.parked t0 h hp
          cases hr0 : t0.role with
          | writer =>
            rw [hr0, waitCond_writer_iff] at hold
            rw [waitCond_writer_iff]
            rcases hold with hh | ⟨hh1, hh2⟩
            · exact absurd hh hg1
            · right
              refine ⟨hh1, ?_⟩
              show s.ctl.readers + 1 > 0
              omega
          | reader =>
            rw [hr0, waitCond_reader_iff] at hold
            exact absurd hold hg1
        · subst h; simp at hp
      · dsimp only
        rw [List.length_set]
        exact hsm

theorem stop_writer_exact (c : ReadersWriters) (h1 : 1 ≤ c.writers) (h2 : c.writers ≤ 1) :
    stop Role.writer c =
      ({ writers := c.writers - 1, readers := c.readers,
         writersPriority := c.writersPriority }, true) := by
  have hw : c.writers = 1 := by omega
  have hz : wrapInt 0 = 0 := by decide
  simp [stop, stopWrite, hw, hz]

theorem stop_reader_exact (c : ReadersWriters) (h1 : 1 ≤ c.readers) (h2 : c.readers ≤ maxInt) :
    stop Role.reader c =
      ({ writers := c.writers, readers := c.readers - 1,
         writersPriority := c.writersPriority }, true) := by
  have hex : wrapInt (c.readers - 1) = c.readers - 1 :=
    wrapInt_eq _ (by unfold minInt; omega) (by unfold maxInt at *; omega)
  simp only [stop, stopRead, hex]

theorem inv_release (s : System) (n : Nat) (t : Task) (hI : Inv s)
    (ht : s.tasks[n]? = some t) (hpc : t.pc = Pc.inside) : Inv (release s n t).1 := by
  have hcw := hI.writers_eq
  have hcr := hI.readers_eq
  have hle := hI.writers_le
  have hsm := hI.small
  have hlr := insideCount_le_length Role.reader s.tasks
  have hW := insideCount_set Role.writer { t with i := t.i + 1, pc := Pc.ready } s.tasks n t ht
  have hR := insideCount_set Role.reader { t with i := t.i + 1, pc := Pc.ready } s.tasks n t ht
  have h0 : ∀ r, ind r { t with i := t.i + 1, pc := Pc.ready } = 0 := by intro r; simp [ind]
  rw [h0] at hW hR
  unfold release
  cases hr : t.role with
  | writer =>
    have h1 : ind Role.writer t = 1 := by simp [ind, hr, hpc]
    have h2 : ind Role.reader t = 0 := by simp [ind, hr]
    rw [h1] at hW
    rw [h2] at hR
    rw [hr] at hW hR
    rw [stop_writer_exact s.ctl (by omega) hle]
    simp only [if_true]
    refine ⟨?_, ?_, ?_, ?_, ?_, ?_⟩
    · dsimp only
      rw [insideCount_wake]; omega
    · dsimp only
      rw [insideCount_wake]; omega
    · show s.ctl.writers - 1 ≤ 1
      omega
    · intro _
      left
      show s.ctl.writers - 1 ≤ 0
      omega
    · intro t0 ht0 hp
      exact absurd hp (wake_not_asleep _ t0 ht0)
    · dsimp only
      rw [length_wake, List.length_set]
      exact hsm
  | reader =>
    have h1 : ind Role.reader t = 1 := by simp [ind, hr, hpc]
    have h2 : ind Role.writer t = 0 := by simp [ind, hr]
    rw [h1] at hR
    rw [h2] at hW
    rw [hr] at hW hR
    rw [stop_reader_exact s.ctl (by omega) (by unfold maxInt; omega)]
    simp only [if_true]
    refine ⟨?_, ?_, hle, ?_, ?_, ?_⟩
    · dsimp only
      rw [insideCount_wake]; omega
    · dsimp only
      rw [insideCount_wake]; omega
    · intro hp
      rcases hI.excl hp with h | h
      · left; exact h
      · right
        show s.ctl.readers - 1 ≤ 0
        omega
    · intro t0 ht0 hp
      exact absurd hp (wake_not_asleep _ t0 ht0)
    · dsimp only
      rw [length_wake, List.length_set]
      exact hsm

/-! ## Steps and runs -/

theorem step_cases (s s1 : System) (n : Nat) (e : Event) (h : step s n = some (s1, e)) :
    ∃ t, s.tasks[n]? = some t ∧
      ((t.pc = Pc.inside ∧ release s n t = (s1, e)) ∨
       (t.pc ≠ Pc.inside ∧ t.pc ≠ Pc.asleep ∧ attempt s n t = (s1, e))) := by
  unfold step at h
  cases ht : s.tasks[n]? with
  | none => simp [ht] at h
  | some t =>
    refine ⟨t, rfl, ?_⟩
    simp only [ht] at h
    cases hpc : t.pc with
    | asleep => simp [hpc] at h
    | inside =>
      simp only [hpc] at h
      exact Or.inl ⟨rfl, Option.some.inj h⟩
    | woken =>
      simp only [hpc] at h
      exact Or.inr ⟨by decide, by decide, Option.some.inj h⟩
    | ready =>
      simp only [hpc] at h
      by_cases hi : t.i < t.iterations
      · simp only [hi, if_true] at h
        exact Or.inr ⟨by decide, by decide, Option.some.inj h⟩
      · simp [hi] at h

theorem inv_step (s s1 : System) (n : Nat) (e : Event) (hI : Inv s)
    (h : step s n = some (s1, e)) : Inv s1 := by
  obtain ⟨t, ht, hc | hc⟩ := step_cases s s1 n e h
  · have := inv_release s n t hI ht hc.1
    rw [hc.2] at this
    exact this
  · have := inv_attempt s n t hI ht hc.1
    rw [hc.2.2] at this
    exact this

theorem run_cons (s s2 : System) (n : Nat) (ns : List Nat) (es : List Event)
    (h : run s (n :: ns) = some (s2, es)) :
    ∃ s1 e es1, step s n = some (s1, e) ∧ run s1 ns = some (s2, es1) ∧ es = e :: es1 := by
  rw [run] at h
  cases hs : step s n with
  | none => simp [hs] at h
  | some r =>
    obtain ⟨s1, e⟩ := r
    simp only [hs] at h
    cases hr : run s1 ns with
    | none => simp [hr] at h
    | some r2 =>
      obtain ⟨s3, es1⟩ := r2
      simp only [hr, Option.some.injEq, Prod.mk.injEq] at h
      exact ⟨s1, e, es1, rfl, by rw [hr, h.1], h.2.symm⟩

theorem inv_run : ∀ (ns : List Nat) (s s2 : System) (es : List Event),
    Inv s → run s ns = some (s2, es) → Inv s2 := by
  intro ns
  induction ns with
  | nil =>
    intro s s2 es hI h
    simp only [run, Option.some.injEq, Prod.mk.injEq] at h
    rw [← h.1]; exact hI
  | cons n ns ih =>
    intro s s2 es hI h
    obtain ⟨s1, e, es1, hs, hr, _⟩ := run_cons s s2 n ns es h
    exact ih s1 s2 es1 (inv_step s s1 n e hI hs) hr

theorem inv_reachable (s0 s : System) (ns : List Nat) (es : List Event)
    (h0 : s0.initial) (hrun : run s0 ns = some (s, es)) : Inv s :=
  inv_run ns s0 s es (inv_initial s0 h0) hrun

theorem priority_step (s s1 : System) (n : Nat) (e : Event)
    (h : step s n = some (s1, e)) : s1.ctl.writersPriority = s.ctl.writersPriority := by
  obtain ⟨t, _, hc | hc⟩ := step_cases s s1 n e h
  · have h2 := hc.2
    unfold release at h2
    simp only [Prod.mk.injEq] at h2
    rw [← h2.1]
    cases t.role <;> rfl
  · have h2 := hc.2.2
    unfold attempt at h2
    cases hs : start t.role s.ctl with
    | none =>
      simp only [hs, Prod.mk.injEq] at h2
      rw [← h2.1]
    | some c1 =>
      simp only [hs, Prod.mk.injEq] at h2
      rw [← h2.1]
      cases hr : t.role with
      | writer =>
        rw [hr] at hs
        rw [(start_writer_some _ _ hs).2]
      | reader =>
        rw [hr] at hs
        rw [(start_reader_some _ _ hs).2]

theorem priority_run : ∀ (ns : List Nat) (s s2 : System) (es : List Event),
    run s ns = some (s2, es) → s2.ctl.writersPriority = s.ctl.writersPriority := by
  intro ns
  induction ns with
  | nil =>
    intro s s2 es h
    simp only [run, Option.some.injEq, Prod.mk.injEq] at h
    rw [← h.1]
  | cons n ns ih =>
    intro s s2 es h
    obtain ⟨s1, e, es1, hs, hr, _⟩ := run_cons s s2 n ns es h
    rw [ih s1 s2 es1 hr, priority_step s s1 n e hs]

theorem execute_initial (c : ReadersWriters) (hw : c.writers = 0) (hr : c.readers = 0) :
    (execute c).initial := by
  refine ⟨hw, hr, ?_, by simp [execute]⟩
  intro t ht
  simp [execute, write, read] at ht
  rcases ht with h | h <;> rw [h]

theorem initial_execute (p : Bool) : (execute (setPriority NewReadersWriters p)).initial :=
  execute_initial _ rfl rfl

theorem step_kinds (s s1 : System) (n : Nat) (e : Event) (h : step s n = some (s1, e)) :
    ∃ t, s.tasks[n]? = some t ∧
      ((e.kind = stopKind t.role ∧ t.pc = Pc.inside ∧ s1.ctl = (stop t.role s.ctl).1) ∨
       (e.kind = EventKind.wait ∧ t.pc ≠ Pc.inside ∧ waitCond t.role s.ctl = true ∧
          s1.ctl = s.ctl) ∨
       (e.kind = startKind t.role ∧ t.pc ≠ Pc.inside ∧ start t.role s.ctl = some s1.ctl)) := by
  obtain ⟨t, ht, hc | hc⟩ := step_cases s s1 n e h
  · refine ⟨t, ht, Or.inl ?_⟩
    have h2 := hc.2
    unfold release at h2
    simp only [Prod.mk.injEq] at h2
    refine ⟨by rw [← h2.2], hc.1, by rw [← h2.1]⟩
  · refine ⟨t, ht, Or.inr ?_⟩
    have h2 := hc.2.2
    unfold attempt at h2
    cases hs : start t.role s.ctl with
    | none =>
      simp only [hs, Prod.mk.injEq] at h2
      exact Or.inl ⟨by rw [← h2.2], hc.1, (start_none_iff _ _).1 hs, by rw [← h2.1]⟩
    | some c1 =>
      simp only [hs, Prod.mk.injEq] at h2
      exact Or.inr ⟨by rw [← h2.2], hc.1, by rw [← h2.1]⟩

theorem countKind_cons (k : EventKind) (e : Event) (es : List Event) :
    countKind k (e :: es) = countKind k es + delta k e := by
  unfold countKind delta
  rw [List.countP_cons]
  by_cases h : e.kind = k <;> simp [h]

theorem step_counters (s s1 : System) (n : Nat) (e : Event) (hI : Inv s)
    (h : step s n = some (s1, e)) :
    s1.ctl.writers + delta EventKind.stopWrite e =
        s.ctl.writers + delta EventKind.startWrite e ∧
      s1.ctl.readers + delta EventKind.stopRead e =
        s.ctl.readers + delta EventKind.startRead e := by
  have hI1 := inv_step s s1 n e hI h
  have a1 := hI.writers_eq
  have a2 := hI.readers_eq
  have a3 := hI.writers_le
  have a4 := hI.small
  have a5 := insideCount_le_length Role.reader s.tasks
  have b1 := hI1.writers_eq
  have b2 := hI1.readers_eq
  obtain ⟨t, _, hc | hc | hc⟩ := step_kinds s s1 n e h
  · obtain ⟨hk, _, hctl⟩ := hc
    cases hr : t.role with
    | writer =>
      rw [hr] at hk hctl
      rw [hctl] at b1 b2 ⊢
      simp only [stop, stopWrite] at b1 b2 ⊢
      simp only [delta, hk, stopKind]
      simp only [wrapInt] at b1 ⊢
      simp
      omega
    | reader =>
      rw [hr] at hk hctl
      rw [hctl] at b1 b2 ⊢
      simp only [stop, stopRead] at b1 b2 ⊢
      simp only [delta, hk, stopKind]
      simp only [wrapInt] at b2 ⊢
      simp
      omega
  · obtain ⟨hk, _, _, hctl⟩ := hc
    simp only [delta, hk, hctl]
    simp
  · obtain ⟨hk, _, hctl⟩ := hc
    cases hr : t.role with
    | writer =>
      rw [hr] at hk hctl
      obtain ⟨_, h1⟩ := start_writer_some _ _ hctl
      simp only [delta, hk, h1, startKind]
      simp
    | reader =>
      rw [hr] at hk hctl
      obtain ⟨_, h1⟩ := start_reader_some _ _ hctl
      rw [h1] at b1 b2 ⊢
      simp only [delta, hk, startKind]
      simp only [wrapInt] at b2 ⊢
      simp
      omega

theorem run_counters : ∀ (ns : List Nat) (s s2 : System) (es : List Event),
    Inv s → run s ns = some (s2, es) →
      s2.ctl.writers + countKind EventKind.stopWrite es =
          s.ctl.writers + countKind EventKind.startWrite es ∧
        s2.ctl.readers + countKind EventKind.stopRead es =
          s.ctl.readers + countKind EventKind.startRead es := by
  intro ns
  induction ns with
  | nil =>
    intro s s2 es _ h
    simp only [run, Option.some.injEq, Prod.mk.injEq] at h
    rw [← h.1, ← h.2]
    simp [countKind]
  | cons n ns ih =>
    intro s s2 es hI h
    obtain ⟨s1, e, es1, hs, hr, hes⟩ := run_cons s s2 n ns es h
    have h1 := step_counters s s1 n e hI hs
    have h2 := ih s1 s2 es1 (inv_step s s1 n e hI hs) hr
    rw [hes]
    simp only [countKind_cons, Nat.cast_add]
    omega

theorem allDone_ready (s : System) (h : s.allDone = true) : ∀ t ∈ s.tasks, t.pc = Pc.ready := by
  intro t ht
  unfold System.allDone at h
  rw [List.all_eq_true] at h
  have := h t ht
  simp only [Task.done, Bool.and_eq_true, decide_eq_true_eq] at this
  exact this.1

theorem ind_le_insideCount (r : Role) (t : Task) :
    ∀ ts : List Task, t ∈ ts → ind r t ≤ insideCount r ts := by
  intro ts
  induction ts with
  | nil => intro h; simp at h
  | cons a as ih =>
    intro h
    rw [insideCount_cons]
    rcases List.mem_cons.1 h with h1 | h1
    · rw [h1]; omega
    · have := ih h1; omega

theorem stopKind_ne_startKind (q r : Role) : stopKind q ≠ startKind r := by
  cases q <;> cases r <;> decide

theorem wait_ne_startKind (r : Role) : EventKind.wait ≠ startKind r := by
  cases r <;> decide

theorem wait_ne_stopKind (r : Role) : EventKind.wait ≠ stopKind r := by
  cases r <;> decide

theorem startKind_inj (q r : Role) (h : startKind q = startKind r) : q = r := by
  cases q <;> cases r <;> first | rfl | exact absurd h (by decide)

theorem stopKind_inj (q r : Role) (h : stopKind q = stopKind r) : q = r := by
  cases q <;> cases r <;> first | rfl | exact absurd h (by decide)

theorem step_start (s s1 : System) (n : Nat) (e : Event) (r : Role)
    (h : step s n = some (s1, e)) (hk : e.kind = startKind r) :
    ∃ t, s.tasks[n]? = some t ∧ t.role = r ∧ t.pc ≠ Pc.inside ∧
      start r s.ctl = some s1.ctl := by
  obtain ⟨t, ht, hc | hc | hc⟩ := step_kinds s s1 n e h
  · rw [hc.1] at hk
    exact absurd hk (stopKind_ne_startKind _ _)
  · rw [hc.1] at hk
    exact absurd hk (wait_ne_startKind _)
  · have hr : t.role = r := startKind_inj _ _ (by rw [← hc.1, hk])
    exact ⟨t, ht, hr, hc.2.1, by rw [← hr]; exact hc.2.2⟩

theorem step_stop (s s1 : System) (n : Nat) (e : Event) (r : Role)
    (h : step s n = some (s1, e)) (hk : e.kind = stopKind r) :
    ∃ t, s.tasks[n]? = some t ∧ t.role = r ∧ t.pc = Pc.inside ∧
      s1.ctl = (stop r s.ctl).1 ∧
      s1.tasks = (if (stop r s.ctl).2 then
          wake (s.tasks.set n { t with i := t.i + 1, pc := Pc.ready })
        else s.tasks.set n { t with i := t.i + 1, pc := Pc.ready }) := by
  obtain ⟨t, ht, hc | hc⟩ := step_cases s s1 n e h
  · have h2 := hc.2
    unfold release at h2
    simp only [Prod.mk.injEq] at h2
    have hr : t.role = r := by
      have := h2.2
      rw [← this] at hk
      exact stopKind_inj _ _ hk
    refine ⟨t, ht, hr, hc.1, ?_, ?_⟩
    · rw [← h2.1, hr]
    · rw [← h2.1, hr]
  · have h2 := hc.2.2
    unfold attempt at h2
    cases hs : start t.role s.ctl with
    | none =>
      simp only [hs, Prod.mk.injEq] at h2
      rw [← h2.2] at hk
      exact absurd hk (wait_ne_stopKind _)
    | some c1 =>
      simp only [hs, Prod.mk.injEq] at h2
      rw [← h2.2] at hk
      exact absurd hk.symm (stopKind_ne_startKind _ _)

theorem stop_broadcast (q r : Role) (c : ReadersWriters)
    (hlo : minInt < c.writers) (hhi : c.writers ≤ maxInt)
    (h1 : waitCond r c = true) (h2 : waitCond r (stop q c).1 = false) :
    (stop q c).2 = true := by
  unfold minInt at hlo
  unfold maxInt at hhi
  cases q with
  | reader => rfl
  | writer =>
    have h3 : ¬ waitCond r (stop Role.writer c).1 = true := by simp [h2]
    cases r with
    | reader =>
      rw [waitCond_reader_iff] at h1 h3
      simp only [stop, stopWrite, decide_eq_true_eq, wrapInt] at *
      omega
    | writer =>
      rw [waitCond_writer_iff] at h1 h3
      simp only [stop, stopWrite, decide_eq_true_eq, wrapInt] at *
      rcases h1 with h1 | h1
      · have : ¬ ((c.writers - 1 + 9223372036854775808) % 18446744073709551616 -
            9223372036854775808 > 0) := fun hh => h3 (Or.inl hh)
        omega
      · exact absurd (Or.inr h1) h3

theorem length_step (s s1 : System) (n : Nat) (e : Event) (h : step s n = some (s1, e)) :
    s1.tasks.length = s.tasks.length := by
  obtain ⟨t, _, hc | hc⟩ := step_cases s s1 n e h
  · have h2 := hc.2
    unfold release at h2
    simp only [Prod.mk.injEq] at h2
    rw [← h2.1]
    by_cases hb : (stop t.role s.ctl).2 = true <;> simp [hb, wake]
  · have h2 := hc.2.2
    unfold attempt at h2
    cases hs : start t.role s.ctl with
    | none =>
      simp only [hs, Prod.mk.injEq] at h2
      rw [← h2.1]
      simp
    | some c1 =>
      simp only [hs, Prod.mk.injEq] at h2
      rw [← h2.1]
      simp

theorem length_run : ∀ (ns : List Nat) (s s2 : System) (es : List Event),
    run s ns = some (s2, es) → s2.tasks.length = s.tasks.length := by
  intro ns
  induction ns with
  | nil =>
    intro s s2 es h
    simp only [run, Option.some.injEq, Prod.mk.injEq] at h
    rw [← h.1]
  | cons n ns ih =>
    intro s s2 es h
    obtain ⟨s1, e, es1, hs, hr, _⟩ := run_cons s s2 n ns es h
    rw [ih s1 s2 es1 hr, length_step s s1 n e hs]

/-- The counters never leave the range from 0 to the number of goroutines,
which is why they are modelled as unbounded integers. -/
theorem counters_bounded (s0 s : System) (ns : List Nat) (es : List Event)
    (h0 : s0.initial) (hrun : run s0 ns = some (s, es)) :
    0 ≤ s.ctl.writers ∧ s.ctl.writers ≤ s0.tasks.length ∧
      0 ≤ s.ctl.readers ∧ s.ctl.readers ≤ s0.tasks.length := by
  have hI := inv_reachable s0 s ns es h0 hrun
  have hw := hI.writers_eq
  have hr := hI.readers_eq
  have hl := length_run ns s0 s es hrun
  have h1 := insideCount_le_length Role.writer s.tasks
  have h2 := insideCount_le_length Role.reader s.tasks
  omega

/-! ## The operations on their own -/

/-- C5: `startWrite` leaves its wait loop exactly when
`writers > 0 ∨ (writersPriority = false ∧ readers > 0)` is false; it then adds
one to `writers` and keeps `readers` and `writersPriority`; under
`writersPriority = true` it proceeds whenever `writers = 0`, whatever the
value of `readers`. -/
theorem startWrite_proceeds_iff (c : ReadersWriters) :
    ((startWrite c).isSome = true ↔
        ¬ (c.writers > 0 ∨ (c.writersPriority = false ∧ c.readers > 0))) ∧
      (¬ (c.writers > 0 ∨ (c.writersPriority = false ∧ c.readers > 0)) →
        startWrite c = some { writers := c.writers + 1, readers := c.readers,
                              writersPriority := c.writersPriority }) ∧
      (c.writersPriority = true → c.writers = 0 →
        startWrite c = some { writers := 1, readers := c.readers,
                              writersPriority := true }) := by
  have hg : startWriteWait c = true ↔
      (c.writers > 0 ∨ (c.writersPriority = false ∧ c.readers > 0)) := by
    simp [startWriteWait]
  refine ⟨?_, ?_, ?_⟩
  · rw [← hg]
    unfold startWrite
    by_cases h : startWriteWait c = true <;> simp [h]
  · intro h
    rw [← hg] at h
    unfold startWrite
    simp [h]
  · intro hp hw
    have h : ¬ startWriteWait c = true := by
      rw [hg, hp, hw]
      simp
    unfold startWrite
    simp [h, hp, hw]

/-- C5, at the state `writers = 0, readers = 3, writersPriority = true`. -/
theorem startWrite_proceeds_iff_witness :
    startWrite { writers := 0, readers := 3, writersPriority := true } =
      some { writers := 1, readers := 3, writersPriority := true } :=
  (startWrite_proceeds_iff { writers := 0, readers := 3, writersPriority := true }).2.2 rfl rfl

/-- C6 fails on the code at the largest `int`: from `writers = 0`,
`readers = maxInt` the call proceeds and `rw.readers++` wraps to `minInt`,
which is not `readers + 1`. -/
theorem startRead_wraps_at_maxInt :
    startRead { writers := 0, readers := maxInt, writersPriority := true } =
        some { writers := 0, readers := minInt, writersPriority := true } ∧
      minInt ≠ maxInt + 1 := by
  decide

/-- C6, amended: `startRead` leaves its wait loop exactly when `writers > 0`
is false, whatever the values of `readers` and `writersPriority`; it then
keeps `writers` and `writersPriority` and leaves `readers` at
`wrapInt (readers + 1)`, which is `readers + 1` for every `readers` below the
largest `int`. -/
theorem startRead_proceeds_iff (c : ReadersWriters) :
    ((startRead c).isSome = true ↔ ¬ (c.writers > 0)) ∧
      (∀ (r : Int) (p : Bool),
        (startRead { writers := c.writers, readers := r, writersPriority := p }).isSome =
          (startRead c).isSome) ∧
      (¬ (c.writers > 0) →
        startRead c = some { writers := c.writers, readers := wrapInt (c.readers + 1),
                             writersPriority := c.writersPriority }) ∧
      (¬ (c.writers > 0) → minInt ≤ c.readers → c.readers < maxInt →
        startRead c = some { writers := c.writers, readers := c.readers + 1,
                             writersPriority := c.writersPriority }) := by
  refine ⟨?_, ?_, ?_, ?_⟩
  · unfold startRead startReadWait
    by_cases h : c.writers > 0 <;> simp [h]
  · intro r p
    unfold startRead startReadWait
    by_cases h : c.writers > 0 <;> simp [h]
  · intro h
    unfold startRead startReadWait
    simp [h]
  · intro h h1 h2
    have hex : wrapInt (c.readers + 1) = c.readers + 1 :=
      wrapInt_eq _ (by unfold minInt at *; omega) (by unfold maxInt at *; omega)
    unfold startRead startReadWait
    simp [h, hex]

/-- C6, amended, at the state `writers = 0, readers = 2,
writersPriority = false`. -/
theorem startRead_proceeds_iff_witness :
    startRead { writers := 0, readers := 2, writersPriority := false } =
      some { writers := 0, readers := 3, writersPriority := false } :=
  (startRead_proceeds_iff { writers := 0, readers := 2, writersPriority := false }).2.2.2
    (by decide) (by decide) (by decide)

/-- C10 fails on the code at the smallest `int`: from `writers = minInt`,
`rw.writers--` wraps to `maxInt`, which is not `writers - 1`. -/
theorem stopWrite_wraps_at_minInt :
    stopWrite { writers := minInt, readers := 0, writersPriority := true } =
        ({ writers := maxInt, readers := 0, writersPriority := true }, false) ∧
      maxInt ≠ minInt - 1 := by
  decide

/-- C10, amended: in every controller state with `writers` above the
smallest `int`, `stopWrite` takes exactly one from `writers`, keeps `readers`
and `writersPriority`, and calls `Broadcast` exactly when the new value of
`writers` is 0; so the step of a writer that is inside wakes every goroutine
parked in `Wait` when the new value is 0, and wakes nobody otherwise. -/
theorem stopWrite_effect (c : ReadersWriters) (ts : List Task) (n : Nat) (t : Task)
    (hlo : minInt < c.writers) (hhi : c.writers ≤ maxInt)
    (ht : ts[n]? = some t) (hrole : t.role = Role.writer) (hpc : t.pc = Pc.inside) :
    stopWrite c =
        ({ writers := c.writers - 1, readers := c.readers,
           writersPriority := c.writersPriority }, decide (c.writers - 1 = 0)) ∧
      step { ctl := c, tasks := ts } n =
        some ({ ctl := { writers := c.writers - 1, readers := c.readers,
                         writersPriority := c.writersPriority },
                tasks := if c.writers - 1 = 0 then
                    wake (ts.set n { t with i := t.i + 1, pc := Pc.ready })
                  else ts.set n { t with i := t.i + 1, pc := Pc.ready } },
              { task := n, kind := EventKind.stopWrite }) ∧
      (c.writers - 1 = 0 → ∀ k u, k ≠ n → ts[k]? = some u →
        (wake (ts.set n { t with i := t.i + 1, pc := Pc.ready }))[k]? =
            some (if u.pc = Pc.asleep then { u with pc := Pc.woken } else u) ∧
          ∀ v ∈ wake (ts.set n { t with i := t.i + 1, pc := Pc.ready }), v.pc ≠ Pc.asleep) ∧
      (c.writers - 1 ≠ 0 → ∀ k u, k ≠ n → ts[k]? = some u →
        (ts.set n { t with i := t.i + 1, pc := Pc.ready })[k]? = some u) := by
  have hex : wrapInt (c.writers - 1) = c.writers - 1 :=
    wrapInt_eq _ (by unfold minInt at *; omega) (by unfold maxInt at *; omega)
  have hstop : stopWrite c =
      ({ writers := c.writers - 1, readers := c.readers,
         writersPriority := c.writersPriority }, decide (c.writers - 1 = 0)) := by
    simp only [stopWrite, hex]
  refine ⟨hstop, ?_, ?_, ?_⟩
  · simp only [step, ht, hpc, release, hrole, stop, stopKind, hstop, decide_eq_true_eq]
  · intro _ k u hk hu
    refine ⟨?_, wake_not_asleep _⟩
    unfold wake
    rw [List.getElem?_map, List.getElem?_set_ne (Ne.symm hk), hu]
    rfl
  · intro _ k u hk hu
    rw [List.getElem?_set_ne (Ne.symm hk), hu]

/-- C10, amended, on the writer-priority episode of `execute`: writer 0 is
inside and writer 1 is parked; the `stopWrite` of writer 0 brings `writers`
to 0 and wakes writer 1. -/
theorem stopWrite_effect_witness :
    step writerBlocked 0 = some (writerQueued, { task := 0, kind := EventKind.stopWrite }) ∧
      writerBlocked.tasks[1]? = some ⟨Role.writer, 1, 0, Pc.asleep⟩ ∧
      writerQueued.tasks[1]? = some ⟨Role.writer, 1, 0, Pc.woken⟩ :=
  have h := stopWrite_effect writerBlocked.ctl writerBlocked.tasks 0
    ⟨Role.writer, 1, 0, Pc.inside⟩ (by decide) (by decide) (by decide) rfl rfl
  ⟨h.2.1, by decide, (h.2.2.1 (by decide) 1 ⟨Role.writer, 1, 0, Pc.asleep⟩ (by decide)
    (by decide)).1⟩

/-- C7 fails on the code: from the counters `0, 0` both stops complete like
any other call and leave the counter at `-1`. -/
theorem unmatched_stop_goes_negative :
    NewReadersWriters.readers = 0 ∧ NewReadersWriters.writers = 0 ∧
      stopRead NewReadersWriters =
        ({ writers := 0, readers := -1, writersPriority := true }, true) ∧
      stopWrite NewReadersWriters =
        ({ writers := -1, readers := 0, writersPriority := true }, false) ∧
      (stopRead NewReadersWriters).1.readers < 0 ∧
      (stopWrite NewReadersWriters).1.writers < 0 := by
  decide

/-! ## Safety of the interleaving semantics -/

/-- C1 fails on the code: in the writer-priority episode of `execute`, reader
2 enters and then writer 0 enters, since under `writersPriority = true` the
loop of `startWrite` does not look at `readers`; the state reached has
`writers = 1` and `readers = 1`, both goroutines inside. -/
theorem execute_writer_priority_overlap :
    (execute NewReadersWriters).ctl.writersPriority = true ∧
      run (execute NewReadersWriters) [2, 0] =
        some (overlapState, [⟨2, EventKind.startRead⟩, ⟨0, EventKind.startWrite⟩]) ∧
      overlapState.ctl.writers ≥ 1 ∧ overlapState.ctl.readers ≥ 1 ∧
      overlapState.tasks[0]? = some ⟨Role.writer, 1, 0, Pc.inside⟩ ∧
      overlapState.tasks[2]? = some ⟨Role.reader, 1, 0, Pc.inside⟩ := by
  decide

/-- C1, amended: from counters at zero and under any interleaving, with
`writersPriority = false` no reachable state has `writers ≥ 1` and
`readers ≥ 1`; for either value of `writersPriority` a `startRead` step is
only ever taken from a state with `writers = 0`. -/
theorem exclusion_by_priority (s0 s : System) (ns : List Nat) (es : List Event)
    (h0 : s0.initial) (hrun : run s0 ns = some (s, es)) :
    (s0.ctl.writersPriority = false → ¬ (s.ctl.writers ≥ 1 ∧ s.ctl.readers ≥ 1)) ∧
      (∀ n s1 e, step s n = some (s1, e) → e.kind = EventKind.startRead →
        s.ctl.writers = 0) := by
  have hI := inv_reachable s0 s ns es h0 hrun
  have hp := priority_run ns s0 s es hrun
  constructor
  · intro hf hc
    rw [← hp] at hf
    rcases hI.excl hf with h | h <;> omega
  · intro n s1 e hs hk
    obtain ⟨t, _, _, _, hst⟩ := step_start s s1 n e Role.reader hs hk
    have hg := (start_reader_some _ _ hst).1
    have hg1 : ¬ (s.ctl.writers > 0) := by
      rw [← waitCond_reader_iff]; simp [hg]
    have := hI.writers_eq
    omega

/-- C1, amended, on a reader-priority episode of `execute`: reader 2 is
inside, writer 0 is parked, and reader 3 enters from `writers = 0`. -/
theorem exclusion_by_priority_witness :
    ¬ (writerParked.ctl.writers ≥ 1 ∧ writerParked.ctl.readers ≥ 1) ∧
      writerParked.ctl.writers = 0 :=
  have h := exclusion_by_priority (execute (setPriority NewReadersWriters false))
    writerParked [2, 0] [⟨2, EventKind.startRead⟩, ⟨0, EventKind.wait⟩]
    (initial_execute false) (by decide)
  ⟨h.1 rfl, h.2 3 secondReaderIn ⟨3, EventKind.startRead⟩ (by decide) rfl⟩

/-- C2: from counters at zero, under any interleaving of the goroutines and
for either value of `writersPriority`, `writers` is at most 1. -/
theorem writers_le_one (s0 s : System) (ns : List Nat) (es : List Event)
    (h0 : s0.initial) (hrun : run s0 ns = some (s, es)) :
    s.ctl.writers ≤ 1 :=
  (inv_reachable s0 s ns es h0 hrun).writers_le

/-- C2 on the writer-priority episode of `execute`, after writer 0 entered. -/
theorem writers_le_one_witness :
    (execute NewReadersWriters).initial ∧
      run (execute NewReadersWriters) [0] =
        some (firstWriterIn, [⟨0, EventKind.startWrite⟩]) ∧
      firstWriterIn.ctl.writers ≤ 1 :=
  ⟨initial_execute true, by decide,
    writers_le_one (execute NewReadersWriters) firstWriterIn [0]
      [⟨0, EventKind.startWrite⟩] (initial_execute true) (by decide)⟩

/-- C3: with `writersPriority = false`, from counters at zero and under any
interleaving, no reachable state has `writers ≥ 1` and `readers ≥ 1`, and a
`startWrite` step is only ever taken from a state with `readers = 0` (and
`writers = 0`), and leaves `readers = 0`. -/
theorem reader_priority_writer_entry (s0 s : System) (ns : List Nat) (es : List Event)
    (h0 : s0.initial) (hp : s0.ctl.writersPriority = false)
    (hrun : run s0 ns = some (s, es)) :
    ¬ (s.ctl.writers ≥ 1 ∧ s.ctl.readers ≥ 1) ∧
      (∀ n s1 e, step s n = some (s1, e) → e.kind = EventKind.startWrite →
        s.ctl.readers = 0 ∧ s.ctl.writers = 0 ∧ s1.ctl.readers = 0 ∧
          s1.ctl.writers = 1) := by
  have hI := inv_reachable s0 s ns es h0 hrun
  have hf : s.ctl.writersPriority = false := by
    rw [priority_run ns s0 s es hrun]; exact hp
  have hw := hI.writers_eq
  have hr := hI.readers_eq
  constructor
  · intro hc
    rcases hI.excl hf with h | h <;> omega
  · intro n s1 e hs hk
    obtain ⟨t, _, _, _, hst⟩ := step_start s s1 n e Role.writer hs hk
    obtain ⟨hg, h1⟩ := start_writer_some _ _ hst
    have hg1 : ¬ (s.ctl.writers > 0 ∨ (s.ctl.writersPriority = false ∧ s.ctl.readers > 0)) := by
      rw [← waitCond_writer_iff]; simp [hg]
    have ha : ¬ (s.ctl.writers > 0) := fun h => hg1 (Or.inl h)
    have hb : ¬ (s.ctl.readers > 0) := fun h => hg1 (Or.inr ⟨hf, h⟩)
    rw [h1]
    dsimp only
    omega

/-- C3 on a reader-priority episode of `execute`: writer 0 found reader 2
inside and went to `Wait`; it enters after reader 2 has left. -/
theorem reader_priority_writer_entry_witness :
    run (execute (setPriority NewReadersWriters false)) [2, 0, 2] =
        some (writerAfterReader, [⟨2, EventKind.startRead⟩, ⟨0, EventKind.wait⟩,
          ⟨2, EventKind.stopRead⟩]) ∧
      step writerAfterReader 0 = some (writerAfterReaderIn, ⟨0, EventKind.startWrite⟩) ∧
      writerAfterReader.ctl.readers = 0 ∧ writerAfterReader.ctl.writers = 0 ∧
      writerAfterReaderIn.ctl.readers = 0 ∧ writerAfterReaderIn.ctl.writers = 1 :=
  ⟨by decide, by decide,
    (reader_priority_writer_entry (execute (setPriority NewReadersWriters false))
      writerAfterReader [2, 0, 2]
      [⟨2, EventKind.startRead⟩, ⟨0, EventKind.wait⟩, ⟨2, EventKind.stopRead⟩]
      (initial_execute false) rfl (by decide)).2 0 writerAfterReaderIn
      ⟨0, EventKind.startWrite⟩ (by decide) rfl⟩

/-- C4 fails on the code: in the writer-priority episode of `execute`, writer
1 calls `startWrite` while writer 0 is inside and goes to `Wait`; writer 0
leaves; reader 2, which had not called `startRead` before, calls it now and
enters, while writer 1 is still waiting in `startWrite`. -/
theorem waiting_writer_overtaken :
    (execute NewReadersWriters).ctl.writersPriority = true ∧
      run (execute NewReadersWriters) [0, 1, 0] =
        some (writerQueued, [⟨0, EventKind.startWrite⟩, ⟨1, EventKind.wait⟩,
          ⟨0, EventKind.stopWrite⟩]) ∧
      writerQueued.tasks[1]? = some ⟨Role.writer, 1, 0, Pc.woken⟩ ∧
      writerQueued.tasks[2]? = some ⟨Role.reader, 1, 0, Pc.ready⟩ ∧
      step writerQueued 2 = some (readerOvertook, ⟨2, EventKind.startRead⟩) ∧
      readerOvertook.tasks[1]? = some ⟨Role.writer, 1, 0, Pc.woken⟩ ∧
      readerOvertook.tasks[2]? = some ⟨Role.reader, 1, 0, Pc.inside⟩ := by
  decide

/-- C4, amended: with `writersPriority = true`, from counters at zero and
under any interleaving, a `startRead` step is never taken while a writer is
inside its critical section, and a reader that calls `startRead` while a
writer is inside goes to `Wait`. -/
theorem reader_blocked_by_active_writer (s0 s : System) (ns : List Nat) (es : List Event)
    (h0 : s0.initial) (hp : s0.ctl.writersPriority = true)
    (hrun : run s0 ns = some (s, es)) :
    s.ctl.writersPriority = true ∧
      ∀ n s1 e, step s n = some (s1, e) →
        (e.kind = EventKind.startRead →
          s.ctl.writers = 0 ∧ ∀ t ∈ s.tasks, t.role = Role.writer → t.pc ≠ Pc.inside) ∧
        (∀ t, s.tasks[n]? = some t → t.role = Role.reader → t.pc ≠ Pc.inside →
          (∃ w ∈ s.tasks, w.role = Role.writer ∧ w.pc = Pc.inside) →
            e.kind = EventKind.wait ∧ s1.ctl = s.ctl) := by
  have hI := inv_reachable s0 s ns es h0 hrun
  have hw := hI.writers_eq
  refine ⟨by rw [priority_run ns s0 s es hrun]; exact hp, ?_⟩
  intro n s1 e hs
  constructor
  · intro hk
    obtain ⟨t, _, _, _, hst⟩ := step_start s s1 n e Role.reader hs hk
    have hg := (start_reader_some _ _ hst).1
    have hg1 : ¬ (s.ctl.writers > 0) := by
      rw [← waitCond_reader_iff]; simp [hg]
    refine ⟨by omega, ?_⟩
    intro w hwm hrole hpc
    have := ind_le_insideCount Role.writer w s.tasks hwm
    have h1 : ind Role.writer w = 1 := by simp [ind, hrole, hpc]
    omega
  · intro t ht hrole hpc hex
    obtain ⟨w, hwm, hwrole, hwpc⟩ := hex
    have := ind_le_insideCount Role.writer w s.tasks hwm
    have h1 : ind Role.writer w = 1 := by simp [ind, hwrole, hwpc]
    obtain ⟨t1, ht1, hc | hc | hc⟩ := step_kinds s s1 n e hs
    · rw [ht] at ht1
      cases ht1
      exact absurd hc.2.1 hpc
    · exact ⟨hc.1, hc.2.2.2⟩
    · rw [ht] at ht1
      cases ht1
      rw [hrole] at hc
      have hg := (start_reader_some _ _ hc.2.2).1
      have hg1 : ¬ (s.ctl.writers > 0) := by
        rw [← waitCond_reader_iff]; simp [hg]
      omega

/-- C4, amended, on the writer-priority episode of `execute`: once writer 0
has left, reader 2 enters from `writers = 0`. -/
theorem reader_blocked_by_active_writer_witness :
    run (execute NewReadersWriters) [0, 1, 0] =
        some (writerQueued, [⟨0, EventKind.startWrite⟩, ⟨1, EventKind.wait⟩,
          ⟨0, EventKind.stopWrite⟩]) ∧
      step writerQueued 2 = some (readerOvertook, ⟨2, EventKind.startRead⟩) ∧
      writerQueued.ctl.writers = 0 :=
  ⟨by decide, by decide,
    (((reader_blocked_by_active_writer (execute NewReadersWriters) writerQueued [0, 1, 0]
      [⟨0, EventKind.startWrite⟩, ⟨1, EventKind.wait⟩, ⟨0, EventKind.stopWrite⟩]
      (initial_execute true) rfl (by decide)).2 2 readerOvertook
      ⟨2, EventKind.startRead⟩ (by decide)).1 rfl).1⟩

/-- C7, amended: the stops make no check of their own, but when every stop
is taken by a goroutine that completed the matching start, from counters at
zero and under any interleaving, `writers ≥ 0` and `readers ≥ 0`, and a
`stopWrite` (`stopRead`) step is only ever taken from a state with
`writers ≥ 1` (`readers ≥ 1`). -/
theorem counters_nonneg_when_matched (s0 s : System) (ns : List Nat) (es : List Event)
    (h0 : s0.initial) (hrun : run s0 ns = some (s, es)) :
    0 ≤ s.ctl.writers ∧ 0 ≤ s.ctl.readers ∧
      ∀ n s1 e, step s n = some (s1, e) →
        (e.kind = EventKind.stopWrite →
          s.ctl.writers ≥ 1 ∧ s1.ctl.writers = s.ctl.writers - 1 ∧ 0 ≤ s1.ctl.writers) ∧
        (e.kind = EventKind.stopRead →
          s.ctl.readers ≥ 1 ∧ s1.ctl.readers = s.ctl.readers - 1 ∧ 0 ≤ s1.ctl.readers) := by
  have hI := inv_reachable s0 s ns es h0 hrun
  have hw := hI.writers_eq
  have hr := hI.readers_eq
  refine ⟨by omega, by omega, ?_⟩
  intro n s1 e hs
  constructor
  · intro hk
    obtain ⟨t, ht, hrole, hpc, hctl, _⟩ := step_stop s s1 n e Role.writer hs hk
    have := ind_le_insideCount Role.writer t s.tasks (List.getElem?_mem ht)
    have h1 : ind Role.writer t = 1 := by simp [ind, hrole, hpc]
    rw [hctl, stop_writer_exact s.ctl (by omega) hI.writers_le]
    dsimp only
    refine ⟨by omega, rfl, by omega⟩
  · intro hk
    obtain ⟨t, ht, hrole, hpc, hctl, _⟩ := step_stop s s1 n e Role.reader hs hk
    have := ind_le_insideCount Role.reader t s.tasks (List.getElem?_mem ht)
    have h1 : ind Role.reader t = 1 := by simp [ind, hrole, hpc]
    have hlen := insideCount_le_length Role.reader s.tasks
    have hsm := hI.small
    rw [hctl, stop_reader_exact s.ctl (by omega) (by unfold maxInt; omega)]
    dsimp only
    refine ⟨by omega, rfl, by omega⟩

/-- C7, amended, on the writer-priority episode of `execute`: writer 0 is
inside and `writers = 1`. -/
theorem counters_nonneg_when_matched_witness :
    run (execute NewReadersWriters) [0] =
        some (firstWriterIn, [⟨0, EventKind.startWrite⟩]) ∧
      0 ≤ firstWriterIn.ctl.writers ∧ 0 ≤ firstWriterIn.ctl.readers :=
  have h := counters_nonneg_when_matched (execute NewReadersWriters) firstWriterIn [0]
    [⟨0, EventKind.startWrite⟩] (initial_execute true) (by decide)
  ⟨by decide, h.1, h.2.1⟩

/-! ## Counter conservation and wake-ups -/

theorem applyOp_counters (c c1 : ReadersWriters) (o : Op)
    (hw : minInt ≤ c.writers ∧ c.writers ≤ maxInt)
    (hr : minInt ≤ c.readers ∧ c.readers ≤ maxInt) (h : applyOp c o = some c1) :
    (minInt ≤ c1.writers ∧ c1.writers ≤ maxInt) ∧
      (minInt ≤ c1.readers ∧ c1.readers ≤ maxInt) ∧
      c1.writers = wrapInt (c.writers + countOp Op.startWrite [o] - countOp Op.stopWrite [o]) ∧
      c1.readers = wrapInt (c.readers + countOp Op.startRead [o] - countOp Op.stopRead [o]) := by
  unfold minInt maxInt at *
  cases o with
  | startWrite =>
    obtain ⟨hg, h1⟩ := start_writer_some c c1 h
    have hg1 : ¬ (c.writers > 0 ∨ (c.writersPriority = false ∧ c.readers > 0)) := by
      rw [← waitCond_writer_iff]; simp [hg]
    have ha : ¬ (c.writers > 0) := fun h => hg1 (Or.inl h)
    rw [h1]
    simp only [countOp, wrapInt]
    simp
    omega
  | startRead =>
    have h1 := (start_reader_some c c1 h).2
    rw [h1]
    simp only [countOp, wrapInt]
    simp
    omega
  | stopWrite =>
    simp only [applyOp, Option.some.injEq] at h
    rw [← h]
    simp only [countOp, stopWrite, wrapInt]
    simp
    omega
  | stopRead =>
    simp only [applyOp, Option.some.injEq] at h
    rw [← h]
    simp only [countOp, stopRead, wrapInt]
    simp
    omega

theorem countOp_cons (k o : Op) (os : List Op) :
    countOp k (o :: os) = countOp k os + countOp k [o] := by
  unfold countOp
  rw [List.countP_cons, List.countP_cons]
  simp

theorem countOp_le_length (k : Op) (os : List Op) : countOp k os ≤ os.length := by
  unfold countOp
  exact List.countP_le_length _

theorem applyOps_counters : ∀ (os : List Op) (c c2 : ReadersWriters),
    (minInt ≤ c.writers ∧ c.writers ≤ maxInt) → (minInt ≤ c.readers ∧ c.readers ≤ maxInt) →
    applyOps c os = some c2 →
      c2.writers = wrapInt (c.writers + countOp Op.startWrite os - countOp Op.stopWrite os) ∧
        c2.readers = wrapInt (c.readers + countOp Op.startRead os - countOp Op.stopRead os) := by
  intro os
  induction os with
  | nil =>
    intro c c2 hw hr h
    simp only [applyOps, Option.some.injEq] at h
    rw [← h]
    unfold minInt maxInt at *
    simp only [countOp, wrapInt]
    simp
    omega
  | cons o os ih =>
    intro c c2 hw hr h
    rw [applyOps] at h
    cases h1 : applyOp c o with
    | none => simp [h1] at h
    | some c1 =>
      simp only [h1] at h
      obtain ⟨hw1, hr1, ha, hb⟩ := applyOp_counters c c1 o hw hr h1
      obtain ⟨hc, hd⟩ := ih c1 c2 hw1 hr1 h
      rw [countOp_cons Op.stopWrite, countOp_cons Op.startWrite,
        countOp_cons Op.stopRead, countOp_cons Op.startRead]
      rw [hc, hd, ha, hb]
      simp only [wrapInt, Nat.cast_add]
      omega

/-- C8: after any sequence `os` of completed calls from counters at zero,
`writers` is the number of `startWrite` calls minus the number of `stopWrite`
calls and `readers` is the number of `startRead` calls minus the number of
`stopRead` calls, as 64-bit `int`s, which is the exact difference for every
sequence of fewer than `2^63` calls; so balanced starts and stops give
counters back at 0; and once every goroutine of an episode of `execute` has
returned, its starts and stops are balanced and both counters are 0. -/
theorem counter_conservation (c0 c : ReadersWriters) (os : List Op)
    (hw0 : c0.writers = 0) (hr0 : c0.readers = 0) (hops : applyOps c0 os = some c) :
    (c.writers = wrapInt ((countOp Op.startWrite os : Int) - countOp Op.stopWrite os) ∧
      c.readers = wrapInt ((countOp Op.startRead os : Int) - countOp Op.stopRead os)) ∧
      (os.length < 9223372036854775808 →
        c.writers = (countOp Op.startWrite os : Int) - countOp Op.stopWrite os ∧
        c.readers = (countOp Op.startRead os : Int) - countOp Op.stopRead os) ∧
      (countOp Op.startWrite os = countOp Op.stopWrite os → c.writers = 0) ∧
      (countOp Op.startRead os = countOp Op.stopRead os → c.readers = 0) ∧
      (∀ ns s es, run (execute c0) ns = some (s, es) →
        s.ctl.writers =
          (countKind EventKind.startWrite es : Int) - countKind EventKind.stopWrite es ∧
        s.ctl.readers =
          (countKind EventKind.startRead es : Int) - countKind EventKind.stopRead es ∧
        (s.allDone = true →
          countKind EventKind.startWrite es = countKind EventKind.stopWrite es ∧
          countKind EventKind.startRead es = countKind EventKind.stopRead es ∧
          s.ctl.writers = 0 ∧ s.ctl.readers = 0)) := by
  obtain ⟨hw, hr⟩ := applyOps_counters os c0 c
    (by rw [hw0]; decide) (by rw [hr0]; decide) hops
  rw [hw0, Int.zero_add] at hw
  rw [hr0, Int.zero_add] at hr
  have l1 := countOp_le_length Op.startWrite os
  have l2 := countOp_le_length Op.stopWrite os
  have l3 := countOp_le_length Op.startRead os
  have l4 := countOp_le_length Op.stopRead os
  refine ⟨⟨hw, hr⟩, ?_, ?_, ?_, ?_⟩
  · intro hlen
    simp only [wrapInt] at hw hr
    constructor <;> omega
  · intro h
    simp only [wrapInt] at hw
    omega
  · intro h
    simp only [wrapInt] at hr
    omega
  · intro ns s es hrun
    have hI0 := inv_initial (execute c0) (execute_initial c0 hw0 hr0)
    obtain ⟨hw1, hr1⟩ := run_counters ns (execute c0) s es hI0 hrun
    have e1 : (execute c0).ctl.writers = 0 := hw0
    have e2 : (execute c0).ctl.readers = 0 := hr0
    rw [e1] at hw1
    rw [e2] at hr1
    refine ⟨by omega, by omega, ?_⟩
    intro hd
    have hI := inv_run ns (execute c0) s es hI0 hrun
    have hready := allDone_ready s hd
    have h1 := hI.writers_eq
    have h2 := hI.readers_eq
    rw [insideCount_ready _ _ hready] at h1 h2
    simp only [Nat.cast_zero] at h1 h2
    refine ⟨by omega, by omega, h1, h2⟩

/-- C8 on a reader-priority episode of `execute` run to its end: two
`startWrite` and two `stopWrite` events, four `startRead` and four `stopRead`
events, counters back at `0, 0`. -/
theorem counter_conservation_witness :
    applyOps (setPriority NewReadersWriters false) fullOps =
        some (setPriority NewReadersWriters false) ∧
      countOp Op.startWrite fullOps = 2 ∧ countOp Op.stopWrite fullOps = 2 ∧
      countOp Op.startRead fullOps = 4 ∧ countOp Op.stopRead fullOps = 4 ∧
      run (execute (setPriority NewReadersWriters false)) fullSchedule =
        some (episodeOver false, fullTrace) ∧
      (episodeOver false).allDone = true ∧
      (countKind EventKind.startWrite fullTrace = countKind EventKind.stopWrite fullTrace ∧
        countKind EventKind.startRead fullTrace = countKind EventKind.stopRead fullTrace ∧
        (episodeOver false).ctl.writers = 0 ∧ (episodeOver false).ctl.readers = 0) :=
  ⟨by decide, by decide, by decide, by decide, by decide, by decide, by decide,
    ((counter_conservation (setPriority NewReadersWriters false)
      (setPriority NewReadersWriters false) fullOps rfl rfl (by decide)).2.2.2.2
      fullSchedule (episodeOver false) fullTrace (by decide)).2.2 (by decide)⟩

/-- C9: from counters at zero, under any interleaving and for either value
of `writersPriority`: a stop step that takes the wait condition of
`startRead` or of `startWrite` from true to false calls `Broadcast`, after
which no goroutine is left parked; a goroutine is parked in `Wait` only in
states where its wait condition holds; so with `writers = 0` and
`readers = 0` no goroutine is parked without having been woken. -/
theorem no_lost_wakeup (s0 s : System) (ns : List Nat) (es : List Event)
    (h0 : s0.initial) (hrun : run s0 ns = some (s, es)) :
    (∀ n s1 e q r, step s n = some (s1, e) → e.kind = stopKind q →
        waitCond r s.ctl = true → waitCond r s1.ctl = false →
          (stop q s.ctl).2 = true ∧ ∀ t ∈ s1.tasks, t.pc ≠ Pc.asleep) ∧
      (∀ t ∈ s.tasks, t.pc = Pc.asleep → waitCond t.role s.ctl = true) ∧
      (s.ctl.writers = 0 → s.ctl.readers = 0 → ∀ t ∈ s.tasks, t.pc ≠ Pc.asleep) := by
  have hI := inv_reachable s0 s ns es h0 hrun
  refine ⟨?_, hI.parked, ?_⟩
  · intro n s1 e q r hs hk h1 h2
    obtain ⟨t, _, _, _, hctl, htasks⟩ := step_stop s s1 n e q hs hk
    rw [hctl] at h2
    have hwe := hI.writers_eq
    have hwl := hI.writers_le
    have hb := stop_broadcast q r s.ctl (by unfold minInt; omega) (by unfold maxInt; omega)
      h1 h2
    refine ⟨hb, ?_⟩
    rw [htasks, hb]
    exact wake_not_asleep _
  · intro hw hr t ht hpc
    have h := hI.parked t ht hpc
    cases hrole : t.role with
    | writer =>
      rw [hrole, waitCond_writer_iff] at h
      omega
    | reader =>
      rw [hrole, waitCond_reader_iff] at h
      omega

/-- C9 on a reader-priority episode of `execute`: writer 0 is parked behind
reader 2; the `stopRead` of reader 2 frees the way and calls `Broadcast`. -/
theorem no_lost_wakeup_witness :
    run (execute (setPriority NewReadersWriters false)) [2, 0] =
        some (writerParked, [⟨2, EventKind.startRead⟩, ⟨0, EventKind.wait⟩]) ∧
      step writerParked 2 = some (writerAfterReader, ⟨2, EventKind.stopRead⟩) ∧
      waitCond Role.writer writerParked.ctl = true ∧
      waitCond Role.writer writerAfterReader.ctl = false ∧
      (stop Role.reader writerParked.ctl).2 = true ∧
      writerAfterReader.tasks[0]? = some ⟨Role.writer, 1, 0, Pc.woken⟩ :=
  ⟨by decide, by decide, by decide, by decide,
    ((no_lost_wakeup (execute (setPriority NewReadersWriters false)) writerParked [2, 0]
      [⟨2, EventKind.startRead⟩, ⟨0, EventKind.wait⟩] (initial_execute false)
      (by decide)).1 2 writerAfterReader ⟨2, EventKind.stopRead⟩ Role.reader Role.writer
      (by decide) rfl (by decide) (by decide)).1, by decide⟩

end RW
